import Mathlib

/-!
Verification of the EL-embeddings trainer (`elembedding.py`) and its
interaction evaluator (`evaluate_interactions.py`).

A class embedding is a vector of dimension `n + 1`: the first `n`
coordinates are the ball's center, the last coordinate stores the
(signed) radius.  Machine floats are idealized as real numbers.
-/

namespace ELEmb

/-- `tf.nn.relu` / `np.maximum(x, 0)`. -/
noncomputable def relu (x : ℝ) : ℝ := max x 0

/-- `tf.norm(x, axis=1)` / `np.linalg.norm(x)`: the Euclidean norm of a vector. -/
noncomputable def enorm {n : ℕ} (x : Fin n → ℝ) : ℝ := Real.sqrt (∑ i, (x i) ^ 2)

/-- Euclidean distance `norm(x - y)` between two vectors. -/
noncomputable def euc {n : ℕ} (x y : Fin n → ℝ) : ℝ := enorm (fun i => x i - y i)

/-- The center part of a class embedding: `c[:, 0:-1]`. -/
def center {n : ℕ} (v : Fin (n + 1) → ℝ) : Fin n → ℝ := fun i => v i.castSucc

/-- The radius of a class embedding: `abs(c[:, -1])`, the absolute value of
the last coordinate. -/
noncomputable def radius {n : ℕ} (v : Fin (n + 1) → ℝ) : ℝ := |v (Fin.last n)|

namespace ELModel

/-- `ELModel.reg`: `abs(norm(x) - reg_norm)`, pulling a center's norm toward
the target `reg_norm`. -/
noncomputable def reg (regNorm : ℝ) {n : ℕ} (x : Fin n → ℝ) : ℝ :=
  |enorm x - regNorm|

/-- `ELModel.loss`: the ball containment-violation primitive.  Splits each
embedding into center and radius (radius through absolute value), and returns
`relu(euc + rc - rd)` plus one regularization term per center. -/
noncomputable def loss (regNorm : ℝ) {n : ℕ} (c d : Fin (n + 1) → ℝ) : ℝ :=
  let rc := radius c
  let rd := radius d
  let c0 := center c
  let d0 := center d
  let dst := relu (euc c0 d0 + rc - rd)
  dst + reg regNorm c0 + reg regNorm d0

/-- `ELModel.nf1_loss` (`C ⊑ D`): the containment primitive on the two
class embeddings. -/
noncomputable def nf1_loss (regNorm : ℝ) {n : ℕ} (c d : Fin (n + 1) → ℝ) : ℝ :=
  loss regNorm c d

/-- `ELModel.nf2_loss` (`C ⊓ D ⊑ E`).  Note two facts of the source kept
verbatim: `re` is computed from `d`, not `e` (the suspected copy-paste slip
the spec's section 9 flags), and `margin` is subtracted once from the sum of
the four relu terms, outside every relu. -/
noncomputable def nf2_loss (margin regNorm : ℝ) {n : ℕ}
    (c d e : Fin (n + 1) → ℝ) : ℝ :=
  let rc := radius c
  let rd := radius d
  let re := radius d
  let sr := rc + rd
  let x1 := center c
  let x2 := center d
  let x3 := center e
  let dst := euc x2 x1
  let dst2 := euc x3 x1
  let dst3 := euc x3 x2
  let rdst := relu (min rc rd - re)
  let dst_loss := relu (dst - sr) + relu (dst2 - rc) + relu (dst3 - rd)
    + rdst - margin
  dst_loss + reg regNorm x1 + reg regNorm x2 + reg regNorm x3

/-- Zero-padding of a relation vector with a `0` in the radius slot:
`tf.concat([r, zeros], 1)`. -/
def pad {n : ℕ} (r : Fin n → ℝ) : Fin (n + 1) → ℝ :=
  fun i => if h : (i : ℕ) < n then r ⟨i, h⟩ else 0

/-- `ELModel.nf3_loss` (`C ⊑ ∃R.D`): translate `c` by the zero-padded
relation vector, then the containment primitive. -/
noncomputable def nf3_loss (regNorm : ℝ) {n : ℕ}
    (c : Fin (n + 1) → ℝ) (r : Fin n → ℝ) (d : Fin (n + 1) → ℝ) : ℝ :=
  loss regNorm (fun i => c i + pad r i) d

/-- `ELModel.nf4_loss` (`∃R.C ⊑ D`): translate `c` by the negated zero-padded
relation vector; the translated ball must intersect `d`'s ball. -/
noncomputable def nf4_loss (margin regNorm : ℝ) {n : ℕ}
    (r : Fin n → ℝ) (c d : Fin (n + 1) → ℝ) : ℝ :=
  let c1 := fun i => c i - pad r i
  let rc := radius c1
  let rd := radius d
  let sr := rc + rd
  let x1 := center c1
  let x2 := center d
  let dst := euc x2 x1
  relu (dst - sr - margin) + reg regNorm x1 + reg regNorm x2

/-- The violation part of `ELModel.dis_loss`:
`relu(sr - dst + margin)` with `sr = rc + rd` and `dst` the center distance. -/
noncomputable def disViolation (margin : ℝ) {n : ℕ}
    (c d : Fin (n + 1) → ℝ) : ℝ :=
  let rc := radius c
  let rd := radius d
  let sr := rc + rd
  let dst := euc (center d) (center c)
  relu (sr - dst + margin)

/-- `ELModel.dis_loss` (`C ⊓ D ⊑ ⊥`): the disjointness violation plus one
regularization term per center. -/
noncomputable def dis_loss (margin regNorm : ℝ) {n : ℕ}
    (c d : Fin (n + 1) → ℝ) : ℝ :=
  disViolation margin c d + reg regNorm (center c) + reg regNorm (center d)

end ELModel

/-- The five-term NF2 formula read off the spec's own wording (for comparison
with the source's `nf2_loss`): margin appears inside term (a) (the centers'
distance must not exceed the sum of the radii minus margin) and inside term
(d) (`min(rc, rd)` must not exceed `re` beyond margin), with `re` taken from
`d` as section 9 directs. -/
noncomputable def specNF2Formula (margin regNorm : ℝ) {n : ℕ}
    (c d e : Fin (n + 1) → ℝ) : ℝ :=
  relu (euc (center d) (center c) - (radius c + radius d - margin))
    + relu (euc (center e) (center c) - radius c)
    + relu (euc (center e) (center d) - radius d)
    + relu (min (radius c) (radius d) - radius d - margin)
    + ELModel.reg regNorm (center c) + ELModel.reg regNorm (center d)
    + ELModel.reg regNorm (center e)

/-- Negation of the stored (signed) radius coordinate of one class embedding,
leaving the center coordinates alone. -/
noncomputable def negRad {n : ℕ} (v : Fin (n + 1) → ℝ) : Fin (n + 1) → ℝ :=
  fun i => if i = Fin.last n then -(v i) else v i

/-- The all-zero embedding vector of dimension 2 (center 0, stored radius 0). -/
noncomputable def zVec2 : Fin 2 → ℝ := fun _ => 0

/-- A concrete embedding with center 1/2 and stored radius 0. -/
noncomputable def cHalf : Fin 2 → ℝ := ![1 / 2, 0]

/-- The classification of the monitored epoch loss, a machine float: a finite
value, NaN, or one of the two infinities. -/
inductive LossVal where
  | val (x : ℝ) : LossVal
  | nan : LossVal
  | posInf : LossVal
  | negInf : LossVal

/-- `math.isnan`: true only for NaN; false for finite values AND for both
infinities. -/
def LossVal.isnan : LossVal → Bool
  | .nan => true
  | _ => false

/-- A finite float value: neither NaN nor an infinity. -/
def LossVal.finiteVal : LossVal → Bool
  | .val _ => true
  | _ => false

namespace Eval

/-- The overlap estimate of `MyModelCheckpoint.on_epoch_end` for one
candidate: if `rc > 0` a normalized ball-overlap fraction, else a binary
indicator of the translated point lying within the candidate's ball plus
margin.  `rc` and `rp` are the RAW stored radii read by this code path. -/
noncomputable def overlapFun (margin rc rp dst : ℝ) : ℝ :=
  if 0 < rc then
    max 0 ((2 * rc - max (dst + rc - rp - margin) 0) / (2 * rc))
  else if max (dst - rp - margin) 0 = 0 then 1 else 0

/-- `res = (overlap + 1 / np.exp(edst)) / 2` with
`edst = np.maximum(0, dst - rc - rp - margin)`. -/
noncomputable def escore (margin rc rp dst : ℝ) : ℝ :=
  (overlapFun margin rc rp dst
    + 1 / Real.exp (max 0 (dst - rc - rp - margin))) / 2

/-- One validation triple's scoring in `MyModelCheckpoint.on_epoch_end`.
`ec = prot_embeds[c, :]` is a numpy view, so `ec += er` adds the relation
vector to row `c` of the shared protein-center matrix IN PLACE; the candidate
distances are then taken against the mutated matrix (whose row `c` is `ec`
itself, so the distance at index `c` is always 0).  Returns the candidate
score vector and the mutated matrix. -/
noncomputable def scoreTriple {p k : ℕ} (margin : ℝ) (rs : Fin p → ℝ)
    (er : Fin k → ℝ) (c : Fin p) (M : Fin p → Fin k → ℝ) :
    (Fin p → ℝ) × (Fin p → Fin k → ℝ) :=
  let M2 := Function.update M c (fun j => M c j + er j)
  let ec := M2 c
  let res := fun i => escore margin (rs c) (rs i) (euc (M2 i) ec)
  (res, M2)

open Classical in
/-- `scipy.stats.rankdata(-res, method='average')` evaluated at index `d`:
the number of strictly higher scores, plus the average position within the
tie group of `res d`. -/
noncomputable def avgRankDesc {p : ℕ} (res : Fin p → ℝ) (d : Fin p) : ℝ :=
  ((Finset.univ.filter fun j => res d < res j).card : ℝ)
    + (((Finset.univ.filter fun j => res j = res d).card : ℝ) + 1) / 2

/-- The raw radius column `prot_rs = prot_embeds[:, -1]` of the selected
protein rows (NO absolute value on this code path). -/
noncomputable def protRsOf {nc k p : ℕ} (cls : Fin nc → Fin (k + 1) → ℝ)
    (protIndex : Fin p → Fin nc) : Fin p → ℝ :=
  fun i => cls (protIndex i) (Fin.last k)

/-- The protein center matrix `prot_embeds[:, :-1]`; the advanced indexing
`cls_embeddings[prot_index]` copies, so each epoch-end call starts scoring
from the current weights. -/
noncomputable def protCentersOf {nc k p : ℕ} (cls : Fin nc → Fin (k + 1) → ℝ)
    (protIndex : Fin p → Fin nc) : Fin p → Fin k → ℝ :=
  fun i => center (cls (protIndex i))

/-- One iteration of the validation loop: score the triple against the
current (mutated) matrix, add the rank of the true target `d`, and thread the
mutated matrix to the next triple. -/
noncomputable def rankStep {p k nr : ℕ} (margin : ℝ) (rs : Fin p → ℝ)
    (rel : Fin nr → Fin k → ℝ) (acc : ℝ × (Fin p → Fin k → ℝ))
    (t : Fin p × Fin nr × Fin p) : ℝ × (Fin p → Fin k → ℝ) :=
  let sc := scoreTriple margin rs (rel t.2.1) t.1 acc.2
  (acc.1 + avgRankDesc sc.1 t.2.2, sc.2)

/-- `mean_rank` of one epoch-end validation pass: total rank over the triples
divided by their number. -/
noncomputable def meanRankOf {nc nr k p : ℕ} (margin : ℝ)
    (validData : List (Fin p × Fin nr × Fin p))
    (cls : Fin nc → Fin (k + 1) → ℝ) (rel : Fin nr → Fin k → ℝ)
    (protIndex : Fin p → Fin nc) : ℝ :=
  (validData.foldl
      (rankStep margin (protRsOf cls protIndex) rel)
      (0, protCentersOf cls protIndex)).1 / validData.length

/-- The checkpoint callback's state: the monitored best mean rank, the
persisted snapshot (class table and relation table), and the stop-training
flag. -/
structure CkptState (nc nr k : ℕ) where
  bestRank : ℝ
  saved : Option ((Fin nc → Fin (k + 1) → ℝ) × (Fin nr → Fin k → ℝ))
  stopped : Bool

/-- `MyModelCheckpoint.__init__`: `self.best_rank = 100000`, nothing yet
persisted by the callback, training running. -/
noncomputable def initCkptState (nc nr k : ℕ) : CkptState nc nr k :=
  { bestRank := 100000, saved := none, stopped := false }

/-- `MyModelCheckpoint.on_epoch_end`: if `math.isnan(loss)` stop training and
return; if the validation set is empty return; otherwise compute `mean_rank`
and, exactly when it strictly improves on `best_rank`, persist the complete
class and relation tables and update `best_rank`. -/
noncomputable def onEpochEnd {nc nr k p : ℕ} (margin : ℝ) (loss : LossVal)
    (validData : List (Fin p × Fin nr × Fin p))
    (cls : Fin nc → Fin (k + 1) → ℝ) (rel : Fin nr → Fin k → ℝ)
    (protIndex : Fin p → Fin nc) (st : CkptState nc nr k) : CkptState nc nr k :=
  if loss.isnan then { st with stopped := true }
  else if validData.length = 0 then st
  else
    let mr := meanRankOf margin validData cls rel protIndex
    if mr < st.bestRank then
      { bestRank := mr, saved := some (cls, rel), stopped := st.stopped }
    else st

/-- The frozen "top" vector: radius coordinate 1000000, center coordinates 0. -/
noncomputable def topEmbedVec (k : ℕ) : Fin (k + 1) → ℝ :=
  fun i => if i = Fin.last k then 1000000 else 0

/-- `MyModelCheckpoint.on_batch_begin`: `if self.top:` tests the Python
truthiness of the optional class index — false both when the top concept is
absent (None) and when its assigned index is 0 — and only then overwrites the
top concept's row with the frozen top vector. -/
noncomputable def onBatchBegin {k : ℕ} (top : Option ℕ)
    (cls : ℕ → Fin (k + 1) → ℝ) : ℕ → Fin (k + 1) → ℝ :=
  match top with
  | none => cls
  | some t => if t = 0 then cls else Function.update cls t (topEmbedVec k)

end Eval

/-- The fixed organism list of the parameter-array decomposition in `main`. -/
def orgs : List String := ["human", "yeast"]

/-- The fixed embedding-size list of the parameter-array decomposition. -/
def sizes : List ℕ := [50, 100, 200, 400]

/-- The fixed margin list of the parameter-array decomposition. -/
def margins : List ℚ := [-1 / 10, -1 / 100, 0, 1 / 100, 1 / 10]

/-- The SLURM parameter-array mixed-radix decomposition in `main`: margin from
`i % 5`, then `i //= 5`; embedding size from `i % 4`, then `i //= 4`; organism
from `i % 2`.  (`reg_norm` is always the single entry 1.) -/
def paramsDecomp (i : ℕ) : ℚ × ℕ × String :=
  let margin := margins.getD (i % 5) 0
  let i1 := i / 5
  let esize := sizes.getD (i1 % 4) 0
  let i2 := i1 / 4
  let org := orgs.getD (i2 % 2) ""
  (margin, esize, org)

/-- Concrete one-row class table with center 0 and stored radius 1. -/
noncomputable def clsOne : Fin 1 → Fin 2 → ℝ := fun _ => ![0, 1]

/-- Concrete zero relation vector of dimension 1. -/
noncomputable def erZero : Fin 1 → ℝ := fun _ => 0

/-- Identity protein-index selection on one protein. -/
def idx1 : Fin 1 → Fin 1 := fun i => i

/-- Concrete 3-protein center matrix with 1-dimensional centers 0, 4, -4. -/
noncomputable def M3 : Fin 3 → Fin 1 → ℝ := ![![0], ![4], ![-4]]

/-- Concrete raw radii: all three proteins have stored radius 0. -/
noncomputable def rs3 : Fin 3 → ℝ := fun _ => 0

/-- Concrete relation vector `[1]`. -/
noncomputable def er1 : Fin 1 → ℝ := fun _ => 1

/-- Concrete relation vector `[-8]`. -/
noncomputable def er2 : Fin 1 → ℝ := fun _ => -8

/-- Concrete one-triple validation list. -/
def vd1 : List (Fin 1 × Fin 1 × Fin 1) := [(0, 0, 0)]

/-- Concrete all-zero one-row class table of dimension 2. -/
noncomputable def clsZ : Fin 1 → Fin 2 → ℝ := fun _ _ => 0

/-- Concrete all-zero one-row relation table of dimension 1. -/
noncomputable def relZ : Fin 1 → Fin 1 → ℝ := fun _ _ => 0

end ELEmb

namespace ELEmb

theorem relu_eq_zero_iff (x : ℝ) : relu x = 0 ↔ x ≤ 0 := by
  unfold relu
  constructor
  · intro h
    by_contra hx
    push_neg at hx
    have hle := le_max_left x 0
    rw [h] at hle
    exact absurd hle (not_le.mpr hx)
  · exact fun h => max_eq_right h

theorem relu_of_nonneg {x : ℝ} (h : 0 ≤ x) : relu x = x :=
  max_eq_left h

theorem enorm_nonneg {n : ℕ} (x : Fin n → ℝ) : 0 ≤ enorm x :=
  Real.sqrt_nonneg _

theorem euc_nonneg {n : ℕ} (x y : Fin n → ℝ) : 0 ≤ euc x y :=
  Real.sqrt_nonneg _

/-- Claim C2: the containment loss equals
`relu(euc(center c, center d) + radius c - radius d)` plus the two
regularization terms `|enorm(center) - regNorm|`; its violation part is zero
iff `euc + radius c ≤ radius d`; and with both radii zero the loss is the
pure center distance plus the two regularization terms. -/
theorem containment_loss_characterization :
    (∀ (n : ℕ) (regNorm : ℝ) (c d : Fin (n + 1) → ℝ),
      ELModel.loss regNorm c d =
        relu (euc (center c) (center d) + radius c - radius d)
          + |enorm (center c) - regNorm| + |enorm (center d) - regNorm|)
    ∧ (∀ (n : ℕ) (c d : Fin (n + 1) → ℝ),
      relu (euc (center c) (center d) + radius c - radius d) = 0 ↔
        euc (center c) (center d) + radius c ≤ radius d)
    ∧ (∀ (n : ℕ) (regNorm : ℝ) (c d : Fin (n + 1) → ℝ),
      radius c = 0 → radius d = 0 →
      ELModel.loss regNorm c d =
        euc (center c) (center d)
          + |enorm (center c) - regNorm| + |enorm (center d) - regNorm|) := by
  refine ⟨fun n regNorm c d => rfl, fun n c d => ?_, fun n regNorm c d hc hd => ?_⟩
  · rw [relu_eq_zero_iff]
    constructor
    · intro h; linarith
    · intro h; linarith
  · show relu (euc (center c) (center d) + radius c - radius d) + _ + _ = _
    rw [hc, hd]
    rw [show euc (center c) (center d) + 0 - 0 = euc (center c) (center d) by ring]
    rw [relu_of_nonneg (euc_nonneg _ _)]
    rfl

theorem euc_fin1 (x y : Fin 1 → ℝ) : euc x y = |x 0 - y 0| := by
  unfold euc enorm
  rw [Fin.sum_univ_one]
  exact Real.sqrt_sq_eq_abs _

theorem enorm_fin1 (x : Fin 1 → ℝ) : enorm x = |x 0| := by
  unfold enorm
  rw [Fin.sum_univ_one]
  exact Real.sqrt_sq_eq_abs _

theorem radius_zVec2 : radius zVec2 = 0 := by
  simp [radius, zVec2]

theorem center_zVec2 : ∀ i, center zVec2 i = 0 := by
  intro i
  simp [center, zVec2]

theorem radius_cHalf : radius cHalf = 0 := by
  simp [radius, cHalf, Fin.last]

theorem center_cHalf : ∀ i, center cHalf i = 1 / 2 := by
  intro i
  fin_cases i
  simp [center, cHalf]

/-- Claim C5 (amended): for every disjointness example, the violation term is
zero if and only if the distance between the two centers is at least
`radius c + radius d` PLUS the margin (the source adds margin inside the relu,
so the required separation grows with the margin, not shrinks). -/
theorem dis_violation_zero_iff_plus_margin :
    ∀ (n : ℕ) (margin : ℝ) (c d : Fin (n + 1) → ℝ),
      ELModel.disViolation margin c d = 0 ↔
        radius c + radius d + margin ≤ euc (center d) (center c) := by
  intro n margin c d
  unfold ELModel.disViolation
  rw [relu_eq_zero_iff]
  constructor <;> intro h <;> linarith

/-- Claim C5 counterexample: with margin 1, centers at distance 1/2 and both
radii 0, the violation is 1/2 ≠ 0 although the distance (1/2) is at least
`radius c + radius d - margin = -1`; the claim's iff fails at this input. -/
theorem dis_violation_minus_margin_cex :
    ¬ (ELModel.disViolation 1 cHalf zVec2 = 0 ↔
        radius cHalf + radius zVec2 - 1 ≤ euc (center zVec2) (center cHalf)) := by
  have heuc : euc (center zVec2) (center cHalf) = 1 / 2 := by
    rw [euc_fin1, center_zVec2, center_cHalf]
    norm_num
  have hviol : ELModel.disViolation 1 cHalf zVec2 = 1 / 2 := by
    unfold ELModel.disViolation
    rw [radius_cHalf, radius_zVec2, heuc]
    unfold relu
    norm_num
  intro h
  have hge : radius cHalf + radius zVec2 - 1 ≤ euc (center zVec2) (center cHalf) := by
    rw [radius_cHalf, radius_zVec2, heuc]
    norm_num
  have := h.mpr hge
  rw [hviol] at this
  norm_num at this

/-- Claim C1 (amended): the NF2 loss is the sum of the four relu terms with
the margin subtracted ONCE from the whole sum, outside every relu (not inside
terms (a) and (d) as the spec words it), with `radius d` standing in for
`radius e` in term (d); the code agrees with the spec-worded five-term formula
exactly when the margin is zero. -/
theorem nf2_loss_margin_structure :
    (∀ (n : ℕ) (margin regNorm : ℝ) (c d e : Fin (n + 1) → ℝ),
      ELModel.nf2_loss margin regNorm c d e =
        relu (euc (center d) (center c) - (radius c + radius d))
          + relu (euc (center e) (center c) - radius c)
          + relu (euc (center e) (center d) - radius d)
          + relu (min (radius c) (radius d) - radius d)
          - margin
          + ELModel.reg regNorm (center c) + ELModel.reg regNorm (center d)
          + ELModel.reg regNorm (center e))
    ∧ (∀ (n : ℕ) (regNorm : ℝ) (c d e : Fin (n + 1) → ℝ),
      ELModel.nf2_loss 0 regNorm c d e = specNF2Formula 0 regNorm c d e) := by
  constructor
  · intro n margin regNorm c d e
    rfl
  · intro n regNorm c d e
    simp only [ELModel.nf2_loss, specNF2Formula, sub_zero]

/-- Claim C1 counterexample: on the all-zero embeddings with margin 1 and
regularization target 0, the source's NF2 loss is -1 while the spec-worded
five-term formula gives 1: the two disagree. -/
theorem nf2_spec_formula_cex :
    ELModel.nf2_loss 1 0 zVec2 zVec2 zVec2 ≠ specNF2Formula 1 0 zVec2 zVec2 zVec2 := by
  have heuc : euc (center zVec2) (center zVec2) = 0 := by
    rw [euc_fin1, center_zVec2]
    norm_num
  have hreg : ELModel.reg 0 (center zVec2) = 0 := by
    unfold ELModel.reg
    rw [enorm_fin1, center_zVec2]
    norm_num
  have hlhs : ELModel.nf2_loss 1 0 zVec2 zVec2 zVec2 = -1 := by
    simp only [ELModel.nf2_loss, radius_zVec2, heuc, hreg, relu, min_self]
    norm_num
  have hrhs : specNF2Formula 1 0 zVec2 zVec2 zVec2 = 1 := by
    simp only [specNF2Formula, radius_zVec2, heuc, hreg, relu, min_self]
    norm_num
  rw [hlhs, hrhs]
  norm_num

theorem negRad_last {n : ℕ} (v : Fin (n + 1) → ℝ) :
    negRad v (Fin.last n) = -(v (Fin.last n)) := if_pos rfl

theorem negRad_castSucc {n : ℕ} (v : Fin (n + 1) → ℝ) (i : Fin n) :
    negRad v i.castSucc = v i.castSucc :=
  if_neg (Fin.castSucc_lt_last i).ne

theorem radius_negRad {n : ℕ} (v : Fin (n + 1) → ℝ) :
    radius (negRad v) = radius v := by
  unfold radius
  rw [negRad_last, abs_neg]

theorem center_negRad {n : ℕ} (v : Fin (n + 1) → ℝ) :
    center (negRad v) = center v := by
  funext i
  unfold center
  exact negRad_castSucc v i

theorem pad_last {n : ℕ} (r : Fin n → ℝ) : ELModel.pad r (Fin.last n) = 0 := by
  unfold ELModel.pad
  rw [dif_neg]
  simp [Fin.last]

theorem pad_castSucc {n : ℕ} (r : Fin n → ℝ) (i : Fin n) :
    ELModel.pad r i.castSucc = r i := by
  unfold ELModel.pad
  rw [dif_pos (show ((i.castSucc : Fin (n + 1)) : ℕ) < n from i.isLt)]
  exact congrArg r (Fin.ext rfl)

theorem radius_add_pad_negRad {n : ℕ} (c : Fin (n + 1) → ℝ) (r : Fin n → ℝ) :
    radius (fun i => negRad c i + ELModel.pad r i) = radius (fun i => c i + ELModel.pad r i) := by
  unfold radius
  simp only [negRad_last, pad_last, add_zero, abs_neg]

theorem center_add_pad_negRad {n : ℕ} (c : Fin (n + 1) → ℝ) (r : Fin n → ℝ) :
    center (fun i => negRad c i + ELModel.pad r i) = center (fun i => c i + ELModel.pad r i) := by
  funext i
  unfold center
  simp only [negRad_castSucc]

theorem radius_sub_pad_negRad {n : ℕ} (c : Fin (n + 1) → ℝ) (r : Fin n → ℝ) :
    radius (fun i => negRad c i - ELModel.pad r i) = radius (fun i => c i - ELModel.pad r i) := by
  unfold radius
  simp only [negRad_last, pad_last, sub_zero, abs_neg]

theorem center_sub_pad_negRad {n : ℕ} (c : Fin (n + 1) → ℝ) (r : Fin n → ℝ) :
    center (fun i => negRad c i - ELModel.pad r i) = center (fun i => c i - ELModel.pad r i) := by
  funext i
  unfold center
  simp only [negRad_castSucc]

/-- Claim C3 (amended): negating the stored radius coordinate of a class
embedding leaves every training loss term (NF1, NF2, NF3, NF4, disjointness)
unchanged, in every argument position, because the training losses read the
radius through its absolute value.  (The epoch-end validation scoring is NOT
invariant: it reads the raw stored radius; see the counterexample.) -/
theorem radius_sign_loss_invariance :
    (∀ (n : ℕ) (regNorm : ℝ) (c d : Fin (n + 1) → ℝ),
      ELModel.nf1_loss regNorm (negRad c) d = ELModel.nf1_loss regNorm c d
        ∧ ELModel.nf1_loss regNorm c (negRad d) = ELModel.nf1_loss regNorm c d)
    ∧ (∀ (n : ℕ) (margin regNorm : ℝ) (c d e : Fin (n + 1) → ℝ),
      ELModel.nf2_loss margin regNorm (negRad c) d e
          = ELModel.nf2_loss margin regNorm c d e
        ∧ ELModel.nf2_loss margin regNorm c (negRad d) e
          = ELModel.nf2_loss margin regNorm c d e
        ∧ ELModel.nf2_loss margin regNorm c d (negRad e)
          = ELModel.nf2_loss margin regNorm c d e)
    ∧ (∀ (n : ℕ) (regNorm : ℝ) (c : Fin (n + 1) → ℝ) (r : Fin n → ℝ)
        (d : Fin (n + 1) → ℝ),
      ELModel.nf3_loss regNorm (negRad c) r d = ELModel.nf3_loss regNorm c r d
        ∧ ELModel.nf3_loss regNorm c r (negRad d) = ELModel.nf3_loss regNorm c r d)
    ∧ (∀ (n : ℕ) (margin regNorm : ℝ) (r : Fin n → ℝ) (c d : Fin (n + 1) → ℝ),
      ELModel.nf4_loss margin regNorm r (negRad c) d
          = ELModel.nf4_loss margin regNorm r c d
        ∧ ELModel.nf4_loss margin regNorm r c (negRad d)
          = ELModel.nf4_loss margin regNorm r c d)
    ∧ (∀ (n : ℕ) (margin regNorm : ℝ) (c d : Fin (n + 1) → ℝ),
      ELModel.dis_loss margin regNorm (negRad c) d
          = ELModel.dis_loss margin regNorm c d
        ∧ ELModel.dis_loss margin regNorm c (negRad d)
          = ELModel.dis_loss margin regNorm c d) := by
  refine ⟨fun n regNorm c d => ⟨?_, ?_⟩,
    fun n margin regNorm c d e => ⟨?_, ?_, ?_⟩,
    fun n regNorm c r d => ⟨?_, ?_⟩,
    fun n margin regNorm r c d => ⟨?_, ?_⟩,
    fun n margin regNorm c d => ⟨?_, ?_⟩⟩ <;>
  simp only [ELModel.nf1_loss, ELModel.nf2_loss, ELModel.nf3_loss,
    ELModel.nf4_loss, ELModel.dis_loss, ELModel.disViolation, ELModel.loss,
    radius_negRad, center_negRad, radius_add_pad_negRad, center_add_pad_negRad,
    radius_sub_pad_negRad, center_sub_pad_negRad]

/-- Claim C3 counterexample: on a one-protein table with center 0 and stored
radius 1, negating the radius coordinate changes the epoch-end validation
score of the (only) candidate from 1 to `(1/exp 2)/2`: the epoch-end
evaluator reads the raw radius, so the sign IS observable there. -/
theorem radius_sign_epoch_score_cex :
    (Eval.scoreTriple 0 (Eval.protRsOf clsOne idx1) erZero 0
        (Eval.protCentersOf clsOne idx1)).1 0
      ≠ (Eval.scoreTriple 0 (Eval.protRsOf (fun i => negRad (clsOne i)) idx1)
          erZero 0 (Eval.protCentersOf (fun i => negRad (clsOne i)) idx1)).1 0 := by
  have hrs : Eval.protRsOf clsOne idx1 0 = 1 := by
    simp [Eval.protRsOf, clsOne, idx1, Fin.last]
  have hrs' : Eval.protRsOf (fun i => negRad (clsOne i)) idx1 0 = -1 := by
    simp [Eval.protRsOf, clsOne, idx1, negRad_last, Fin.last]
    rw [show (1 : Fin 2) = Fin.last 1 from rfl, negRad_last]
    simp [clsOne, Fin.last]
  have hself : ∀ (rs : Fin 1 → ℝ) (M : Fin 1 → Fin 1 → ℝ),
      (Eval.scoreTriple (0 : ℝ) rs erZero 0 M).1 0
        = Eval.escore 0 (rs 0) (rs 0) 0 := by
    intro rs M
    show Eval.escore 0 (rs 0) (rs 0)
      (euc (Function.update M 0 (fun j => M 0 j + erZero j) 0)
        (Function.update M 0 (fun j => M 0 j + erZero j) 0)) = _
    rw [euc_fin1]
    rw [sub_self, abs_zero]
  rw [hself, hself, hrs, hrs']
  have hpos : Eval.escore (0 : ℝ) 1 1 0 = 1 := by
    unfold Eval.escore Eval.overlapFun
    rw [if_pos (show (0 : ℝ) < 1 by norm_num)]
    rw [show (0 : ℝ) + 1 - 1 - 0 = 0 by ring, max_self]
    rw [show (0 : ℝ) - 1 - 1 - 0 = -2 by ring]
    rw [max_eq_left (show (-2 : ℝ) ≤ 0 by norm_num), Real.exp_zero]
    norm_num
  have hneg : Eval.escore (0 : ℝ) (-1) (-1) 0 = 1 / Real.exp 2 / 2 := by
    unfold Eval.escore Eval.overlapFun
    rw [if_neg (show ¬ (0 : ℝ) < -1 by norm_num)]
    rw [show (0 : ℝ) - -1 - 0 = 1 by ring]
    rw [max_eq_left (show (0 : ℝ) ≤ 1 by norm_num)]
    rw [if_neg (show (1 : ℝ) ≠ 0 by norm_num)]
    rw [show (0 : ℝ) - -1 - -1 - 0 = 2 by ring]
    rw [max_eq_right (show (0 : ℝ) ≤ 2 by norm_num)]
    ring
  rw [hpos, hneg]
  have hexp : 1 < Real.exp 2 := Real.one_lt_exp_iff.mpr (by norm_num)
  intro h
  have : 1 / Real.exp 2 / 2 < 1 := by
    have h1 : 1 / Real.exp 2 < 1 := by
      rw [div_lt_one (lt_trans one_pos hexp)]
      exact hexp
    linarith
  rw [← h] at this
  exact lt_irrefl 1 this

theorem overlapFun_nonneg (margin rc rp dst : ℝ) :
    0 ≤ Eval.overlapFun margin rc rp dst := by
  unfold Eval.overlapFun
  split_ifs
  · exact le_max_left 0 _
  · norm_num
  · norm_num

theorem overlapFun_le_one (margin rc rp dst : ℝ) :
    Eval.overlapFun margin rc rp dst ≤ 1 := by
  unfold Eval.overlapFun
  split_ifs with h1
  · apply max_le (by norm_num)
    rw [div_le_one (by linarith)]
    have h2 := le_max_right (dst + rc - rp - margin) 0
    linarith
  · norm_num
  · norm_num

theorem overlapFun_antitone (margin rc rp : ℝ) :
    Antitone (fun dst => Eval.overlapFun margin rc rp dst) := by
  intro a b hab
  show Eval.overlapFun margin rc rp b ≤ Eval.overlapFun margin rc rp a
  unfold Eval.overlapFun
  by_cases h1 : 0 < rc
  · rw [if_pos h1, if_pos h1]
    apply max_le_max le_rfl
    rw [div_le_div_iff_of_pos_right (by linarith : (0 : ℝ) < 2 * rc)]
    have h2 : max (a + rc - rp - margin) 0 ≤ max (b + rc - rp - margin) 0 :=
      max_le_max (by linarith) le_rfl
    linarith
  · rw [if_neg h1, if_neg h1]
    by_cases h2 : max (b - rp - margin) 0 = 0
    · have hb : b - rp - margin ≤ 0 := by
        by_contra hb
        push_neg at hb
        rw [max_eq_left hb.le] at h2
        linarith
      have h3 : max (a - rp - margin) 0 = 0 := max_eq_right (by linarith)
      rw [if_pos h2, if_pos h3]
    · rw [if_neg h2]
      split_ifs <;> norm_num

/-- Claim C6 (amended): for fixed margin and radii, the candidate score
`(overlap + exp(-edst))/2` lies in `(0, 1]` and is NON-INCREASING in the
center distance; it is not strictly decreasing (the counterexample shows the
score saturates at 1 for small distances). -/
theorem escore_range_and_antitone :
    (∀ margin rc rp dst : ℝ,
      0 < Eval.escore margin rc rp dst ∧ Eval.escore margin rc rp dst ≤ 1)
    ∧ (∀ margin rc rp : ℝ, Antitone (fun dst => Eval.escore margin rc rp dst)) := by
  constructor
  · intro margin rc rp dst
    unfold Eval.escore
    constructor
    · have h1 := overlapFun_nonneg margin rc rp dst
      have h2 : 0 < 1 / Real.exp (max 0 (dst - rc - rp - margin)) :=
        div_pos one_pos (Real.exp_pos _)
      linarith
    · have h1 := overlapFun_le_one margin rc rp dst
      have h2 : 1 / Real.exp (max 0 (dst - rc - rp - margin)) ≤ 1 := by
        rw [div_le_one (Real.exp_pos _)]
        exact Real.one_le_exp (le_max_left 0 (dst - rc - rp - margin))
      linarith
  · intro margin rc rp
    intro a b hab
    show Eval.escore margin rc rp b ≤ Eval.escore margin rc rp a
    unfold Eval.escore
    rw [div_le_div_iff_of_pos_right (by norm_num : (0 : ℝ) < 2)]
    have h1 := overlapFun_antitone margin rc rp hab
    have h2 : 1 / Real.exp (max 0 (b - rc - rp - margin))
        ≤ 1 / Real.exp (max 0 (a - rc - rp - margin)) := by
      apply one_div_le_one_div_of_le (Real.exp_pos _)
      apply Real.exp_le_exp.mpr
      exact max_le_max le_rfl (by linarith)
    exact add_le_add h1 h2

/-- Claim C6 counterexample: with margin 0, query radius 1 and candidate
radius 2, the score is 1 both at distance 0 and at distance 1/2: it is not
strictly decreasing in the distance. -/
theorem escore_not_strictAnti :
    ¬ StrictAnti (fun dst => Eval.escore (0 : ℝ) 1 2 dst) := by
  intro h
  have key : ∀ dst : ℝ, dst ≤ 1 / 2 → Eval.escore (0 : ℝ) 1 2 dst = 1 := by
    intro dst h12
    unfold Eval.escore Eval.overlapFun
    rw [if_pos (show (0 : ℝ) < 1 by norm_num)]
    rw [max_eq_right (show dst + 1 - 2 - 0 ≤ 0 by linarith)]
    rw [max_eq_left (show dst - 1 - 2 - 0 ≤ 0 by linarith)]
    rw [sub_zero, div_self (by norm_num : (2 : ℝ) * 1 ≠ 0)]
    rw [max_eq_right (by norm_num : (0 : ℝ) ≤ 1), Real.exp_zero]
    norm_num
  have hlt : Eval.escore (0 : ℝ) 1 2 (1 / 2) < Eval.escore (0 : ℝ) 1 2 0 :=
    h (by norm_num)
  rw [key 0 (by norm_num), key (1 / 2) le_rfl] at hlt
  exact lt_irrefl 1 hlt

theorem euc_self {n : ℕ} (x : Fin n → ℝ) : euc x x = 0 := by
  unfold euc enorm
  simp

theorem escore_zero_zero : Eval.escore (0 : ℝ) 0 0 0 = 1 := by
  unfold Eval.escore Eval.overlapFun
  rw [if_neg (lt_irrefl (0 : ℝ))]
  rw [show (0 : ℝ) - 0 - 0 - 0 = 0 from by ring, show (0 : ℝ) - 0 - 0 = 0 from by ring]
  rw [max_self, if_pos rfl, Real.exp_zero]
  norm_num

theorem escore_zero_far (dst : ℝ) (h : 0 < dst) :
    Eval.escore (0 : ℝ) 0 0 dst = 1 / Real.exp dst / 2 := by
  unfold Eval.escore Eval.overlapFun
  rw [if_neg (lt_irrefl (0 : ℝ))]
  rw [show dst - 0 - 0 - 0 = dst from by ring, show dst - 0 - 0 = dst from by ring]
  rw [max_eq_left h.le, if_neg h.ne', max_eq_right h.le]
  rw [zero_add]

theorem escore_far_lt_one (dst : ℝ) (h : 0 < dst) :
    Eval.escore (0 : ℝ) 0 0 dst < 1 := by
  rw [escore_zero_far dst h]
  have h1 : 1 < Real.exp dst := Real.one_lt_exp_iff.mpr h
  have h2 : 1 / Real.exp dst < 1 := by
    rw [div_lt_one (by linarith)]
    exact h1
  linarith

theorem escore_far_lt (d1 d2 : ℝ) (h1 : 0 < d1) (h12 : d1 < d2) :
    Eval.escore (0 : ℝ) 0 0 d2 < Eval.escore (0 : ℝ) 0 0 d1 := by
  rw [escore_zero_far d1 h1, escore_zero_far d2 (lt_trans h1 h12)]
  have h3 := one_div_lt_one_div_of_lt (Real.exp_pos d1) (Real.exp_lt_exp.mpr h12)
  linarith

theorem avgRankDesc_three_second (res : Fin 3 → ℝ)
    (h01 : res 1 < res 0) (h21 : res 2 < res 1) :
    Eval.avgRankDesc res 1 = 2 := by
  unfold Eval.avgRankDesc
  rw [Finset.card_filter, Finset.card_filter, Fin.sum_univ_three, Fin.sum_univ_three]
  rw [if_pos h01, if_neg (lt_irrefl (res 1)), if_neg (not_lt.mpr h21.le),
    if_neg (ne_of_gt h01), if_pos rfl, if_neg (ne_of_lt h21)]
  push_cast
  norm_num

theorem avgRankDesc_three_third (res : Fin 3 → ℝ)
    (h01 : res 1 < res 0) (h12 : res 1 < res 2) :
    Eval.avgRankDesc res 1 = 3 := by
  unfold Eval.avgRankDesc
  rw [Finset.card_filter, Finset.card_filter, Fin.sum_univ_three, Fin.sum_univ_three]
  rw [if_pos h01, if_neg (lt_irrefl (res 1)), if_pos h12,
    if_neg (ne_of_gt h01), if_pos rfl, if_neg (ne_of_gt h12)]
  push_cast
  norm_num

/-- Claim C4: scoring one validation/test triple adds the relation vector to
row `c` of the shared protein-center matrix in place and leaves every other
row unchanged (the matrix returned is exactly `Function.update` of the input);
consequently a later triple's candidate scores and the rank of its true
target depend on which triples were scored before it: on the concrete matrix
`M3`, scoring `(0, er2, 0)` first changes both the score and the rank that
the triple with query 0 and target 1 computes. -/
theorem eval_inplace_translation_order_dependence :
    (∀ (p k : ℕ) (margin : ℝ) (rs : Fin p → ℝ) (er : Fin k → ℝ) (c : Fin p)
        (M : Fin p → Fin k → ℝ),
      (Eval.scoreTriple margin rs er c M).2 =
        Function.update M c (fun j => M c j + er j))
    ∧ (Eval.scoreTriple 0 rs3 er1 0 M3).1 1
        ≠ (Eval.scoreTriple 0 rs3 er1 0 ((Eval.scoreTriple 0 rs3 er2 0 M3).2)).1 1
    ∧ Eval.avgRankDesc ((Eval.scoreTriple 0 rs3 er1 0 M3).1) 1
        ≠ Eval.avgRankDesc
            ((Eval.scoreTriple 0 rs3 er1 0 ((Eval.scoreTriple 0 rs3 er2 0 M3).2)).1) 1 := by
  have hU1 : Function.update M3 0 (fun j => M3 0 j + er1 j) 1 0 = 4 := by
    rw [Function.update_noteq (show (1 : Fin 3) ≠ 0 from by decide)]
    norm_num [M3]
  have hU2 : Function.update M3 0 (fun j => M3 0 j + er1 j) 2 0 = -4 := by
    rw [Function.update_noteq (show (2 : Fin 3) ≠ 0 from by decide)]
    norm_num [M3]
  have hU0 : Function.update M3 0 (fun j => M3 0 j + er1 j) 0 0 = 1 := by
    rw [Function.update_same]
    norm_num [M3, er1]
  have hV0 : Function.update M3 0 (fun j => M3 0 j + er2 j) 0 0 = -8 := by
    rw [Function.update_same]
    norm_num [M3, er2]
  have hV1 : Function.update M3 0 (fun j => M3 0 j + er2 j) 1 0 = 4 := by
    rw [Function.update_noteq (show (1 : Fin 3) ≠ 0 from by decide)]
    norm_num [M3]
  have hV2 : Function.update M3 0 (fun j => M3 0 j + er2 j) 2 0 = -4 := by
    rw [Function.update_noteq (show (2 : Fin 3) ≠ 0 from by decide)]
    norm_num [M3]
  have hfresh1 : (Eval.scoreTriple (0 : ℝ) rs3 er1 0 M3).1 1
      = Eval.escore 0 0 0 3 := by
    show Eval.escore 0 (rs3 0) (rs3 1)
        (euc (Function.update M3 0 (fun j => M3 0 j + er1 j) 1)
          (Function.update M3 0 (fun j => M3 0 j + er1 j) 0)) = _
    rw [euc_fin1, hU1, hU0]
    rw [show (4 : ℝ) - 1 = 3 from by norm_num, abs_of_pos (show (0 : ℝ) < 3 from by norm_num)]
    rfl
  have hfresh0 : (Eval.scoreTriple (0 : ℝ) rs3 er1 0 M3).1 0 = 1 := by
    show Eval.escore 0 (rs3 0) (rs3 0)
        (euc (Function.update M3 0 (fun j => M3 0 j + er1 j) 0)
          (Function.update M3 0 (fun j => M3 0 j + er1 j) 0)) = 1
    rw [euc_self]
    exact escore_zero_zero
  have hfresh2 : (Eval.scoreTriple (0 : ℝ) rs3 er1 0 M3).1 2
      = Eval.escore 0 0 0 5 := by
    show Eval.escore 0 (rs3 0) (rs3 2)
        (euc (Function.update M3 0 (fun j => M3 0 j + er1 j) 2)
          (Function.update M3 0 (fun j => M3 0 j + er1 j) 0)) = _
    rw [euc_fin1, hU2, hU0]
    rw [show (-4 : ℝ) - 1 = -5 from by norm_num, abs_of_neg (show (-5 : ℝ) < 0 from by norm_num)]
    norm_num
    rfl
  have hW1 : (Eval.scoreTriple (0 : ℝ) rs3 er1 0
      ((Eval.scoreTriple (0 : ℝ) rs3 er2 0 M3).2)).1 1
      = Eval.escore 0 0 0 11 := by
    show Eval.escore 0 (rs3 0) (rs3 1)
        (euc (Function.update (Function.update M3 0 (fun j => M3 0 j + er2 j)) 0
            (fun j => Function.update M3 0 (fun j => M3 0 j + er2 j) 0 j + er1 j) 1)
          (Function.update (Function.update M3 0 (fun j => M3 0 j + er2 j)) 0
            (fun j => Function.update M3 0 (fun j => M3 0 j + er2 j) 0 j + er1 j) 0)) = _
    rw [euc_fin1]
    rw [Function.update_noteq (show (1 : Fin 3) ≠ 0 from by decide)]
    rw [Function.update_same, hV1, hV0]
    rw [show (4 : ℝ) - (-8 + er1 0) = 11 from by norm_num [er1]]
    rw [abs_of_pos (show (0 : ℝ) < 11 from by norm_num)]
    rfl
  have hW0 : (Eval.scoreTriple (0 : ℝ) rs3 er1 0
      ((Eval.scoreTriple (0 : ℝ) rs3 er2 0 M3).2)).1 0 = 1 := by
    show Eval.escore 0 (rs3 0) (rs3 0)
        (euc (Function.update (Function.update M3 0 (fun j => M3 0 j + er2 j)) 0
            (fun j => Function.update M3 0 (fun j => M3 0 j + er2 j) 0 j + er1 j) 0)
          (Function.update (Function.update M3 0 (fun j => M3 0 j + er2 j)) 0
            (fun j => Function.update M3 0 (fun j => M3 0 j + er2 j) 0 j + er1 j) 0)) = 1
    rw [euc_self]
    exact escore_zero_zero
  have hW2 : (Eval.scoreTriple (0 : ℝ) rs3 er1 0
      ((Eval.scoreTriple (0 : ℝ) rs3 er2 0 M3).2)).1 2
      = Eval.escore 0 0 0 3 := by
    show Eval.escore 0 (rs3 0) (rs3 2)
        (euc (Function.update (Function.update M3 0 (fun j => M3 0 j + er2 j)) 0
            (fun j => Function.update M3 0 (fun j => M3 0 j + er2 j) 0 j + er1 j) 2)
          (Function.update (Function.update M3 0 (fun j => M3 0 j + er2 j)) 0
            (fun j => Function.update M3 0 (fun j => M3 0 j + er2 j) 0 j + er1 j) 0)) = _
    rw [euc_fin1]
    rw [Function.update_noteq (show (2 : Fin 3) ≠ 0 from by decide)]
    rw [Function.update_same, hV2, hV0]
    rw [show (-4 : ℝ) - (-8 + er1 0) = 3 from by norm_num [er1]]
    rw [abs_of_pos (show (0 : ℝ) < 3 from by norm_num)]
    rfl
  refine ⟨fun p k margin rs er c M => rfl, ?_, ?_⟩
  · rw [hfresh1, hW1]
    exact (escore_far_lt 3 11 (by norm_num) (by norm_num)).ne'
  · have hr1 : Eval.avgRankDesc ((Eval.scoreTriple (0 : ℝ) rs3 er1 0 M3).1) 1 = 2 := by
      apply avgRankDesc_three_second
      · rw [hfresh1, hfresh0]
        exact escore_far_lt_one 3 (by norm_num)
      · rw [hfresh1, hfresh2]
        exact escore_far_lt 3 5 (by norm_num) (by norm_num)
    have hr2 : Eval.avgRankDesc
        ((Eval.scoreTriple (0 : ℝ) rs3 er1 0
          ((Eval.scoreTriple (0 : ℝ) rs3 er2 0 M3).2)).1) 1 = 3 := by
      apply avgRankDesc_three_third
      · rw [hW1, hW0]
        exact escore_far_lt_one 11 (by norm_num)
      · rw [hW1, hW2]
        exact escore_far_lt 3 11 (by norm_num) (by norm_num)
    rw [hr1, hr2]
    norm_num

theorem avgRankDesc_fin_one (res : Fin 1 → ℝ) (d : Fin 1) :
    Eval.avgRankDesc res d = 1 := by
  unfold Eval.avgRankDesc
  rw [Finset.card_filter, Finset.card_filter, Fin.sum_univ_one, Fin.sum_univ_one]
  have h0 : (0 : Fin 1) = d := Subsingleton.elim _ _
  rw [h0, if_neg (lt_irrefl (res d)), if_pos rfl]
  norm_num

theorem meanRank_vd1 (cls : Fin 1 → Fin 2 → ℝ) (rel : Fin 1 → Fin 1 → ℝ) :
    Eval.meanRankOf (0 : ℝ) vd1 cls rel idx1 = 1 := by
  show ((0 : ℝ) + Eval.avgRankDesc
      ((Eval.scoreTriple 0 (Eval.protRsOf cls idx1) (rel 0) 0
        (Eval.protCentersOf cls idx1)).1) 0) / ((1 : ℕ) : ℝ) = 1
  rw [avgRankDesc_fin_one]
  norm_num

theorem onEpochEnd_improved {nc nr k p : ℕ} (margin : ℝ) (loss : LossVal)
    (vd : List (Fin p × Fin nr × Fin p))
    (cls : Fin nc → Fin (k + 1) → ℝ) (rel : Fin nr → Fin k → ℝ)
    (protIndex : Fin p → Fin nc) (st : Eval.CkptState nc nr k)
    (h : loss.isnan = false) (hne : vd.length ≠ 0)
    (himp : Eval.meanRankOf margin vd cls rel protIndex < st.bestRank) :
    Eval.onEpochEnd margin loss vd cls rel protIndex st =
      { bestRank := Eval.meanRankOf margin vd cls rel protIndex,
        saved := some (cls, rel), stopped := st.stopped } := by
  unfold Eval.onEpochEnd
  rw [if_neg (show ¬ (loss.isnan = true) from by simp [h]), if_neg hne]
  show (if Eval.meanRankOf margin vd cls rel protIndex < st.bestRank then
      ({ bestRank := Eval.meanRankOf margin vd cls rel protIndex,
         saved := some (cls, rel), stopped := st.stopped } : Eval.CkptState nc nr k)
    else st) = _
  rw [if_pos himp]

theorem onEpochEnd_not_improved {nc nr k p : ℕ} (margin : ℝ) (loss : LossVal)
    (vd : List (Fin p × Fin nr × Fin p))
    (cls : Fin nc → Fin (k + 1) → ℝ) (rel : Fin nr → Fin k → ℝ)
    (protIndex : Fin p → Fin nc) (st : Eval.CkptState nc nr k)
    (h : loss.isnan = false) (hne : vd.length ≠ 0)
    (himp : ¬ Eval.meanRankOf margin vd cls rel protIndex < st.bestRank) :
    Eval.onEpochEnd margin loss vd cls rel protIndex st = st := by
  unfold Eval.onEpochEnd
  rw [if_neg (show ¬ (loss.isnan = true) from by simp [h]), if_neg hne]
  show (if Eval.meanRankOf margin vd cls rel protIndex < st.bestRank then
      ({ bestRank := Eval.meanRankOf margin vd cls rel protIndex,
         saved := some (cls, rel), stopped := st.stopped } : Eval.CkptState nc nr k)
    else st) = _
  rw [if_neg himp]

/-- Claim C7 (amended): the epoch-end callback halts training exactly on a
NaN loss — on NaN the only state change is setting the stop flag, with no
scoring and no persistence — while any loss that is not NaN, the two
infinities included, leaves the stop flag alone and proceeds to the
validation/persistence logic (the code tests only `math.isnan`). -/
theorem epoch_end_halts_iff_nan :
    (∀ (nc nr k p : ℕ) (margin : ℝ)
        (vd : List (Fin p × Fin nr × Fin p))
        (cls : Fin nc → Fin (k + 1) → ℝ) (rel : Fin nr → Fin k → ℝ)
        (protIndex : Fin p → Fin nc) (st : Eval.CkptState nc nr k),
      Eval.onEpochEnd margin .nan vd cls rel protIndex st
        = { st with stopped := true })
    ∧ (∀ (nc nr k p : ℕ) (margin : ℝ) (loss : LossVal)
        (vd : List (Fin p × Fin nr × Fin p))
        (cls : Fin nc → Fin (k + 1) → ℝ) (rel : Fin nr → Fin k → ℝ)
        (protIndex : Fin p → Fin nc) (st : Eval.CkptState nc nr k),
      loss.isnan = false →
      (Eval.onEpochEnd margin loss vd cls rel protIndex st).stopped
        = st.stopped) := by
  constructor
  · intro nc nr k p margin vd cls rel protIndex st
    rfl
  · intro nc nr k p margin loss vd cls rel protIndex st h
    unfold Eval.onEpochEnd
    rw [if_neg (show ¬ (loss.isnan = true) from by simp [h])]
    by_cases hl : vd.length = 0
    · rw [if_pos hl]
    · rw [if_neg hl]
      show (if Eval.meanRankOf margin vd cls rel protIndex < st.bestRank then
          ({ bestRank := Eval.meanRankOf margin vd cls rel protIndex,
             saved := some (cls, rel), stopped := st.stopped } : Eval.CkptState nc nr k)
        else st).stopped = st.stopped
      split_ifs <;> rfl

/-- Claim C7 counterexample: with loss = +infinity (non-finite yet not NaN)
and a non-empty validation set, training is NOT halted: the stop flag stays
false and the epoch even scores and persists the tables. -/
theorem epoch_end_posinf_proceeds_cex :
    (Eval.onEpochEnd (0 : ℝ) .posInf vd1 clsZ relZ idx1
        (Eval.initCkptState 1 1 1)).stopped = false
    ∧ (Eval.onEpochEnd (0 : ℝ) .posInf vd1 clsZ relZ idx1
        (Eval.initCkptState 1 1 1)).saved = some (clsZ, relZ) := by
  have hlen : vd1.length ≠ 0 := by
    unfold vd1
    norm_num
  have himp : Eval.meanRankOf (0 : ℝ) vd1 clsZ relZ idx1
      < (Eval.initCkptState 1 1 1).bestRank := by
    rw [meanRank_vd1 clsZ relZ]
    show (1 : ℝ) < 100000
    norm_num
  have h := onEpochEnd_improved (0 : ℝ) .posInf vd1 clsZ relZ idx1
    (Eval.initCkptState 1 1 1) rfl hlen himp
  rw [h]
  exact ⟨rfl, rfl⟩

/-- Claim C9: with a non-empty validation set and a finite epoch loss, the
epoch-end callback persists the complete class and relation tables exactly
when mean_rank strictly improves on best_rank (initialized to the sentinel
100000 in __init__); on improvement best_rank becomes mean_rank and the stop
flag is untouched, otherwise the whole state is left unchanged (nothing
persisted). -/
theorem checkpoint_persist_iff {nc nr k p : ℕ} (margin : ℝ) (loss : LossVal)
    (vd : List (Fin p × Fin nr × Fin p))
    (cls : Fin nc → Fin (k + 1) → ℝ) (rel : Fin nr → Fin k → ℝ)
    (protIndex : Fin p → Fin nc) (st : Eval.CkptState nc nr k)
    (hf : loss.finiteVal = true) (hne : vd ≠ []) :
    (Eval.initCkptState nc nr k).bestRank = 100000
    ∧ (Eval.meanRankOf margin vd cls rel protIndex < st.bestRank →
        Eval.onEpochEnd margin loss vd cls rel protIndex st =
          { bestRank := Eval.meanRankOf margin vd cls rel protIndex,
            saved := some (cls, rel), stopped := st.stopped })
    ∧ (¬ Eval.meanRankOf margin vd cls rel protIndex < st.bestRank →
        Eval.onEpochEnd margin loss vd cls rel protIndex st = st) := by
  have hn : loss.isnan = false := by
    cases loss <;> simp [LossVal.isnan, LossVal.finiteVal] at hf ⊢
  have hlen : vd.length ≠ 0 :=
    fun h => hne (List.length_eq_zero.mp h)
  exact ⟨rfl,
    fun h => onEpochEnd_improved margin loss vd cls rel protIndex st hn hlen h,
    fun h => onEpochEnd_not_improved margin loss vd cls rel protIndex st hn hlen h⟩

/-- Witness for C9 at a concrete input: one protein, the one-triple validation
list, finite loss 5, initial state; the mean rank is 1 < 100000, so the class
and relation tables are persisted and best_rank becomes 1. -/
theorem checkpoint_persist_iff_witness :
    Eval.onEpochEnd (0 : ℝ) (.val 5) vd1 clsZ relZ idx1 (Eval.initCkptState 1 1 1)
      = { bestRank := 1, saved := some (clsZ, relZ), stopped := false } := by
  have h := (checkpoint_persist_iff (0 : ℝ) (.val 5) vd1 clsZ relZ idx1
      (Eval.initCkptState 1 1 1) rfl (by unfold vd1; exact List.cons_ne_nil _ _)).2.1
  rw [meanRank_vd1 clsZ relZ] at h
  have h2 := h (by show (1 : ℝ) < 100000; norm_num)
  rw [h2]
  rfl

/-- Claim C8 (the code slip): when the top concept owl:Thing is assigned class
index 0, the Python truthiness test `if self.top:` is false, so on_batch_begin
does NOT pin the top row and returns the table unchanged — although every
nonzero index is pinned to the frozen top vector; the hook is also a no-op
when the top concept is absent. -/
theorem top_pin_skipped_at_index_zero :
    (∀ (k : ℕ) (cls : ℕ → Fin (k + 1) → ℝ),
      Eval.onBatchBegin (some 0) cls = cls)
    ∧ (∀ (k : ℕ) (cls : ℕ → Fin (k + 1) → ℝ) (t : ℕ),
      t ≠ 0 → Eval.onBatchBegin (some t) cls t = Eval.topEmbedVec k)
    ∧ (∀ (k : ℕ) (cls : ℕ → Fin (k + 1) → ℝ),
      Eval.onBatchBegin none cls = cls) := by
  refine ⟨fun k cls => rfl, fun k cls t ht => ?_, fun k cls => rfl⟩
  show (if t = 0 then cls else Function.update cls t (Eval.topEmbedVec k)) t
    = Eval.topEmbedVec k
  rw [if_neg ht, Function.update_same]

/-- Claim C10: the parameter-array decomposition is mixed-radix with margin
fastest (base 5), then embedding size (base 4), then organism (base 2):
`margin = margins[i % 5]`, `size = sizes[(i div 5) % 4]`,
`org = orgs[(i div 20) % 2]`; index 0 gives (-1/10, 50, orgs[0] = human) and
index 5 gives (-1/10, 100, orgs[0] = human). -/
theorem params_decomposition_mixed_radix :
    (∀ i : ℕ, paramsDecomp i =
      (margins.getD (i % 5) 0, sizes.getD (i / 5 % 4) 0, orgs.getD (i / 20 % 2) ""))
    ∧ paramsDecomp 0 = (-1 / 10, 50, "human")
    ∧ paramsDecomp 5 = (-1 / 10, 100, "human") := by
  refine ⟨fun i => ?_, rfl, rfl⟩
  show (margins.getD (i % 5) 0, sizes.getD (i / 5 % 4) 0,
    orgs.getD (i / 5 / 4 % 2) "") = _
  rw [Nat.div_div_eq_div_mul]

end ELEmb
